import Mathlib

/-!
Verification development for the dwd-hf-exporter repository.

This file gives a shallow embedding of the two source files
`src/dwd_hf_exporter/main.py` and `src/dwd_hf_exporter/converter.py`
and proves or refutes the frozen specification claims about them.

The embedding follows the Python source line by line:

* Python strings are Lean `String`s; `str.replace`, `os.path.basename`,
  `os.path.join`, `str.endswith` and format strings are modelled by
  executable Lean functions below.
* `datetime` dates are modelled by a `Date` structure carrying the
  calendar validity invariants that `datetime` itself enforces;
  `timedelta(days=1)` addition is the `nextDay` function.
* The external collaborators (boto3 `head_object`/`upload_file`,
  `HfApi.list_repo_tree`, `hf_hub_download`, the converter seen from
  `main.py`, `os.remove`) are oracles collected in an `Env` structure;
  each per-file stage records its side effect as an `Event` so that
  frame claims ("no store happened") are statable.
* Fallible Python code (code that may raise) returns `Except`;
  an exception that the source catches is modelled where it is caught,
  an exception the source does not catch propagates as `.error`.
-/

set_option autoImplicit false

namespace DwdHf

/-! ## String utilities modelling the Python primitives used by the source -/

/-- Model of Python `str.endswith(suffix)`: suffix test on the character list. -/
def strEndsWith (s suf : String) : Bool :=
  suf.data.isSuffixOf s.data

/-- Model of `os.path.basename`: the characters after the last `/`
(the whole string when there is no `/`). -/
def basename (p : String) : String :=
  ⟨(p.data.reverse.takeWhile (fun c => c ≠ '/')).reverse⟩

/-- Model of `PurePosixPath.parent` for a path that contains a `/`:
the characters before the last `/`.  The converter only applies it to the
slash-containing paths produced by the download stage. -/
def pathParent (p : String) : String :=
  ⟨((p.data.reverse.dropWhile (fun c => c ≠ '/')).drop 1).reverse⟩

/-- Model of `os.path.join(a, b)` for the relative second components used by
the source: empty `a` yields `b`, an `a` ending in `/` is concatenated
directly, otherwise a `/` separator is inserted. -/
def pyJoin (a b : String) : String :=
  if a = "" then b
  else if strEndsWith a "/" then a ++ b
  else a ++ "/" ++ b

/-- Fuelled worker for `replaceAll`.  One unit of fuel is spent per character
position scanned, so `s.length` fuel always suffices. -/
def replaceAllFuel (pat rep : List Char) : Nat → List Char → List Char
  | _, [] => []
  | 0, s => s
  | n + 1, c :: rest =>
    if pat ≠ [] ∧ pat.isPrefixOf (c :: rest) then
      rep ++ replaceAllFuel pat rep n ((c :: rest).drop pat.length)
    else
      c :: replaceAllFuel pat rep n rest

/-- Model of Python `str.replace(old, new)` for a nonempty `old`:
every non-overlapping occurrence, scanned left to right, is replaced. -/
def replaceAll (pat rep s : List Char) : List Char :=
  replaceAllFuel pat rep s.length s

/-- `filename.replace(".zarr.zip", ".nc")` from `main.py` line 124 and
`converter.py` line 54. -/
def convertedFilename (fn : String) : String :=
  ⟨replaceAll ".zarr.zip".data ".nc".data fn.data⟩

/-- Model of the Python format item `{n:02d}`: decimal digits, left padded
with `0` to width two. -/
def pad2 (n : Nat) : String :=
  if n < 10 then "0" ++ Nat.repr n else Nat.repr n

/-- Model of the four-digit year field of `date.isoformat()`. -/
def pad4 (n : Nat) : String :=
  ⟨List.replicate (4 - (Nat.repr n).length) '0' ++ (Nat.repr n).data⟩

/-! ## Calendar model (Python `datetime` dates and `timedelta(days=1)`) -/

/-- Gregorian leap-year rule, as implemented by Python `datetime`. -/
def isLeap (y : Nat) : Bool :=
  (y % 4 == 0 && y % 100 != 0) || y % 400 == 0

/-- Days in a month of the Gregorian calendar. -/
def daysInMonth (y m : Nat) : Nat :=
  if m = 2 then (if isLeap y then 29 else 28)
  else if m = 4 ∨ m = 6 ∨ m = 9 ∨ m = 11 then 30
  else 31

theorem daysInMonth_pos (y m : Nat) : 1 ≤ daysInMonth y m := by
  unfold daysInMonth
  split
  · split <;> omega
  · split <;> omega

theorem daysInMonth_le (y m : Nat) : daysInMonth y m ≤ 31 := by
  unfold daysInMonth
  split
  · split <;> omega
  · split <;> omega

/-- A calendar date.  Python `datetime` only constructs valid dates, so the
validity invariants are part of the type. -/
structure Date where
  year : Nat
  month : Nat
  day : Nat
  month_pos : 1 ≤ month
  month_le : month ≤ 12
  day_pos : 1 ≤ day
  day_le : day ≤ daysInMonth year month

theorem Date.day_le31 (d : Date) : d.day ≤ 31 :=
  le_trans d.day_le (daysInMonth_le _ _)

/-- `date + timedelta(days=1)`. -/
def nextDay (d : Date) : Date :=
  if h : d.day < daysInMonth d.year d.month then
    { d with day := d.day + 1, day_pos := by omega, day_le := h }
  else if hm : d.month < 12 then
    { year := d.year, month := d.month + 1, day := 1,
      month_pos := by omega, month_le := hm,
      day_pos := le_refl 1, day_le := daysInMonth_pos _ _ }
  else
    { year := d.year + 1, month := 1, day := 1,
      month_pos := le_refl 1, month_le := by omega,
      day_pos := le_refl 1, day_le := daysInMonth_pos _ _ }

/-- Python `datetime` comparison `date <= end` (dates with zero time part
compare lexicographically on year, month, day). -/
def dateLe (a b : Date) : Prop :=
  a.year < b.year ∨
    (a.year = b.year ∧
      (a.month < b.month ∨ (a.month = b.month ∧ a.day ≤ b.day)))

instance (a b : Date) : Decidable (dateLe a b) := by
  unfold dateLe; exact inferInstance

/-- Strict lexicographic date order. -/
def dateLt (a b : Date) : Prop :=
  a.year < b.year ∨
    (a.year = b.year ∧
      (a.month < b.month ∨ (a.month = b.month ∧ a.day < b.day)))

instance (a b : Date) : Decidable (dateLt a b) := by
  unfold dateLt; exact inferInstance

/-- A numeric encoding of dates that is strictly monotone along `nextDay`
and compatible with `dateLe` on valid dates. -/
def dateOrd (d : Date) : Nat :=
  d.year * 10000 + d.month * 100 + d.day

theorem dateOrd_lt_nextDay (d : Date) : dateOrd d < dateOrd (nextDay d) := by
  have h31 := d.day_le31
  have hm := d.month_le
  unfold nextDay
  split
  · simp only [dateOrd]; omega
  · split <;> (simp only [dateOrd]; omega)

theorem dateOrd_le_of_dateLe {a b : Date} (h : dateLe a b) :
    dateOrd a ≤ dateOrd b := by
  have ha31 := a.day_le31
  have hb1 := b.day_pos
  have ham := a.month_le
  have hbm := b.month_pos
  unfold dateLe at h
  unfold dateOrd
  rcases h with h | ⟨hy, h | ⟨hmth, hd⟩⟩ <;> omega

theorem dateLt_nextDay (d : Date) : dateLt d (nextDay d) := by
  unfold nextDay
  split
  · exact Or.inr ⟨rfl, Or.inr ⟨rfl, Nat.lt_succ_self _⟩⟩
  · split
    · exact Or.inr ⟨rfl, Or.inl (Nat.lt_succ_self _)⟩
    · exact Or.inl (Nat.lt_succ_self _)

/-- The date string printed by `f"{date.date()}"`: ISO format with zero
padding. -/
def dateStr (d : Date) : String :=
  pad4 d.year ++ "-" ++ pad2 d.month ++ "-" ++ pad2 d.day

/-! ## Converter (`converter.py`)

The scientific payload of a zarr dataset is irrelevant to the claims; what
matters is the pair of coordinate axes, modelled as lists of rationals
(`ds.latitude.values`, `ds.longitude.values`). -/

/-- The coordinate axes of an opened dataset. -/
structure Dataset where
  latitude : List ℚ
  longitude : List ℚ
deriving DecidableEq

/-- `lat_min, lat_max = 45.7, 46.4` (converter.py line 18). -/
def lat_min : ℚ := 45.7
def lat_max : ℚ := 46.4
/-- `lon_min, lon_max = 10.5, 11.9` (converter.py line 19). -/
def lon_min : ℚ := 10.5
def lon_max : ℚ := 11.9

/-- Model of xarray/pandas label-based slice selection
`ds.sel(axis=slice(a, b))` on a monotonic coordinate axis: the positions of
`a` and `b` are looked up in the axis's own order, so the kept values are
the ones lying between `a` and `b` *in that order* (both ends inclusive).
On an ascending axis `slice(a, b)` keeps `a ≤ v ≤ b`; on a descending axis
it keeps `b ≤ v ≤ a`. -/
def xrSel (a b : ℚ) (xs : List ℚ) : List ℚ :=
  if List.Chain' (· ≤ ·) xs then
    xs.filter (fun v => decide (a ≤ v ∧ v ≤ b))
  else
    xs.filter (fun v => decide (b ≤ v ∧ v ≤ a))

/-- The bounding-box selection of `converter.extract` (converter.py
lines 33-43): compare `ds.latitude.values[0]` with
`ds.latitude.values[-1]`; on an ascending axis select
`slice(lat_min, lat_max)`, otherwise `slice(lat_max, lat_min)`; the
longitude slice is `slice(lon_min, lon_max)` in both branches. -/
def bboxSelect (ds : Dataset) : Dataset :=
  if ds.latitude.headD 0 < ds.latitude.getLastD 0 then
    { latitude := xrSel lat_min lat_max ds.latitude
      longitude := xrSel lon_min lon_max ds.longitude }
  else
    { latitude := xrSel lat_max lat_min ds.latitude
      longitude := xrSel lon_min lon_max ds.longitude }

/-- Side effects of one `converter.extract` call that the claims mention. -/
inductive ConvEvent where
  | netcdfWrite (path : String)
deriving DecidableEq

/-- `input_path.parent / input_path.name.replace(".zarr.zip", ".nc")`
(converter.py lines 52-54). -/
def extractOutputPath (filepath : String) : String :=
  pathParent filepath ++ "/" ++ convertedFilename (basename filepath)

/-- `converter.extract` (converter.py lines 7-63) given the dataset `ds`
contained in the archive at `filepath`: select the bounding box, raise
`ValueError` when either selected axis has zero extent, otherwise write the
NetCDF output next to the input and return its path.  The unzip/open steps
and the temp-directory cleanup have no bearing on the claims and are
elided; a failure of those steps reaches `main.py` as a generic converter
error, which the pipeline model makes a separate oracle for. -/
def extract (filepath : String) (ds : Dataset) :
    Except String String × List ConvEvent :=
  let sel := bboxSelect ds
  if sel.latitude.length = 0 ∨ sel.longitude.length = 0 then
    (.error ("Empty subset for " ++ filepath), [])
  else
    let output_path := extractOutputPath filepath
    (.ok output_path, [ConvEvent.netcdfWrite output_path])

/-! ## Pipeline state (`main.py`) -/

/-- Result of one boto3 `head_object` call, as distinguished by
`s3_key_exists`: a successful response, a `botocore` `ClientError`
carrying an error code (`"404"` for not-found, but also `"403"`,
`"AccessDenied"`, ... for transport/auth failures reported through
`ClientError`), or an exception that is not a `ClientError`. -/
inductive HeadResult where
  | found
  | clientError (code : String)
  | otherError (msg : String)
deriving DecidableEq

/-- `s3_key_exists` (main.py lines 44-49): `head_object` succeeding returns
`True`; every `ClientError` is caught and returns `False`; any other
exception propagates. -/
def s3_key_exists (r : HeadResult) : Except String Bool :=
  match r with
  | .found => .ok true
  | .clientError _ => .ok false
  | .otherError m => .error m

/-- The run configuration passed to `run_pipeline`.  The source field
`s3_prefix` is named `s3_prefix_` here for lexical reasons only. -/
structure Config where
  repo_id : String
  local_root : String
  s3_bucket : String
  s3_prefix_ : String
  force : Bool
  dryrun : Bool

/-- The external collaborators of `main.py` as oracles: the outcome each
external call would have during this run. -/
structure Env where
  /-- `head_object(Bucket=b, Key=k)` outcome, by bucket and key. -/
  head : String → String → HeadResult
  /-- `list_repo_tree(repo_id=r, path_in_repo=p)`: entry paths, or the
  message of the raised exception. -/
  listTree : String → String → Except String (List String)
  /-- Whether `hf_hub_download` succeeds for a remote path. -/
  downloadOk : String → Bool
  /-- `converter.extract(path)` as observed by `main.py`: converted path
  or the message of the raised exception. -/
  convert : String → Except String String
  /-- Whether `upload_file(local, bucket, key)` succeeds. -/
  uploadOk : String → String → String → Bool
  /-- Whether `os.remove(path)` raises `OSError` (which the source
  swallows). -/
  removeRaisesOSError : String → Bool

/-- The externally visible side effects of the per-file pipeline, in
program order. -/
inductive Event where
  | mkdir (dir : String)
  | headCheck (bucket key : String)
  | dryrunWrite (path : String)
  | download (remotePath dest : String)
  | convertCall (src : String)
  | upload (localPath bucket key : String)
  | removeFile (path : String)
deriving DecidableEq

/-- `local_dir = os.path.join(local_root, f"{yyyy}/{mm}/{dd}")`
(main.py line 120; unpadded month and day). -/
def localDir (root : String) (d : Date) : String :=
  pyJoin root (Nat.repr d.year ++ "/" ++ Nat.repr d.month ++ "/" ++ Nat.repr d.day)

/-- `local_original = os.path.join(local_dir, filename)` (main.py
line 123). -/
def localOriginal (root : String) (d : Date) (remotePath : String) : String :=
  pyJoin (localDir root d) (basename remotePath)

/-- `converted_local = os.path.join(local_dir, converted_filename)`
(main.py line 125; computed by the source but never used afterwards). -/
def convertedLocal (root : String) (d : Date) (remotePath : String) : String :=
  pyJoin (localDir root d) (convertedFilename (basename remotePath))

/-- `converted_s3_key = f"{s3_prefix}/{yyyy}/{mm:02d}/{dd:02d}/{converted_filename}"`
(main.py line 127). -/
def convertedS3Key (pre : String) (d : Date) (filename : String) : String :=
  pre ++ "/" ++ Nat.repr d.year ++ "/" ++ pad2 d.month ++ "/" ++ pad2 d.day
    ++ "/" ++ convertedFilename filename

/-- `folder_path = f"data/{yyyy}/{mm}/{dd}"` (main.py line 68; unpadded). -/
def hfFolderPath (d : Date) : String :=
  "data/" ++ Nat.repr d.year ++ "/" ++ Nat.repr d.month ++ "/" ++ Nat.repr d.day

/-- `list_hf_files_for_date` (main.py lines 61-82): list the repo tree at
the date folder; on any exception warn and return the empty list; on
success keep, in listing order, the entries ending in `".zarr.zip"`.
The second component is the list of warnings printed. -/
def list_hf_files_for_date (env : Env) (repo_id : String) (d : Date) :
    List String × List String :=
  match env.listTree repo_id (hfFolderPath d) with
  | .error e =>
      ([], ["Could not list HF directory " ++ hfFolderPath d ++ ": " ++ e])
  | .ok tree => (tree.filter (fun p => strEndsWith p ".zarr.zip"), [])

/-! ## File stage processor (the body of the `for remote_path in hf_files`
loop of `process_single_day`, main.py lines 117-190) -/

/-- The idempotency gate (main.py line 132):
`if not force and s3_key_exists(s3, s3_bucket, converted_s3_key)`.
Python `and` short-circuits, so with `force` the existence check is not
called at all; without `force` the call is made (recorded as a
`headCheck` event) and a non-`ClientError` exception propagates. -/
def gateStep (env : Env) (cfg : Config) (key : String) :
    Except String (Bool × List Event) :=
  if cfg.force then .ok (false, [])
  else
    match s3_key_exists (env.head cfg.s3_bucket key) with
    | .error e => .error e
    | .ok b => .ok (b, [Event.headCheck cfg.s3_bucket key])

/-- The download stage (main.py lines 139-159).  Without `dryrun`,
`hf_hub_download(..., local_dir=temp_local_dir)` with the hardcoded
`temp_local_dir = "./"` places the file at the repo-relative path under
the current directory and returns that path (the documented `local_dir`
behaviour of `huggingface_hub`); with `dryrun` an empty file is written at
`local_original` and that path is used.  `none` means the stage raised and
is recorded as `FAILED-DOWNLOAD`. -/
def downloadStep (env : Env) (cfg : Config)
    (remotePath local_original : String) : Option String × Event :=
  if cfg.dryrun then
    (some local_original, Event.dryrunWrite local_original)
  else if env.downloadOk remotePath then
    (some (pyJoin "./" remotePath), Event.download remotePath (pyJoin "./" remotePath))
  else
    (none, Event.download remotePath (pyJoin "./" remotePath))

/-- The upload stage (main.py lines 172-180): skipped under `dryrun`,
otherwise `upload_to_s3(s3, converted_path, s3_bucket, converted_s3_key)`
with any exception caught as `FAILED-UPLOAD`. -/
def uploadStep (env : Env) (cfg : Config) (converted_path key : String) :
    Bool × List Event :=
  if cfg.dryrun then (true, [])
  else (env.uploadOk converted_path cfg.s3_bucket key,
        [Event.upload converted_path cfg.s3_bucket key])

/-- The stages after the idempotency gate: download, convert, upload,
best-effort cleanup (main.py lines 137-190).  Every branch of the source
appends exactly one outcome string and `continue`s, so this function is
total: it returns the outcome line together with the events performed. -/
def afterGate (env : Env) (cfg : Config) (d : Date)
    (remotePath filename local_original key : String) (evs : List Event) :
    String × List Event :=
  match downloadStep env cfg remotePath local_original with
  | (none, dev) =>
      ("FAILED-DOWNLOAD " ++ dateStr d ++ " " ++ filename, evs ++ [dev])
  | (some downloaded_path, dev) =>
    let evs := evs ++ [dev]
    match env.convert downloaded_path with
    | .error _ =>
        ("FAILED-CONVERT " ++ dateStr d ++ " " ++ filename,
         evs ++ [Event.convertCall downloaded_path])
    | .ok converted_path =>
      let evs := evs ++ [Event.convertCall downloaded_path]
      match uploadStep env cfg converted_path key with
      | (false, uevs) =>
          ("FAILED-UPLOAD " ++ dateStr d ++ " " ++ filename, evs ++ uevs)
      | (true, uevs) =>
        let _ := env.removeRaisesOSError local_original
        ("OK " ++ dateStr d ++ " " ++ filename,
         evs ++ uevs ++ [Event.removeFile local_original])

/-- One iteration of the per-file loop of `process_single_day` (main.py
lines 117-190): derive the paths and the destination key, create the
staging directory, run the idempotency gate, then the staged pipeline.
`.error` is the propagation of a non-`ClientError` existence-check
exception, which the source does not catch. -/
def processFile (env : Env) (cfg : Config) (d : Date) (remotePath : String) :
    Except String (String × List Event) :=
  let filename := basename remotePath
  let local_dir := localDir cfg.local_root d
  let local_original := pyJoin local_dir filename
  let key := convertedS3Key cfg.s3_prefix_ d filename
  match gateStep env cfg key with
  | .error e => .error e
  | .ok (true, gevs) =>
      .ok ("SKIPPED " ++ dateStr d ++ " " ++ filename, Event.mkdir local_dir :: gevs)
  | .ok (false, gevs) =>
      .ok (afterGate env cfg d remotePath filename local_original key
            (Event.mkdir local_dir :: gevs))

/-! ## Day processor and range controller -/

/-- The per-file loop of `process_single_day`, appending one outcome per
file in listing order; a propagated exception aborts the loop and loses
the day's partial results, exactly as in the source. -/
def processDayFiles (env : Env) (cfg : Config) (d : Date) :
    List String → Except String (List String × List Event)
  | [] => .ok ([], [])
  | rp :: rest =>
    match processFile env cfg d rp with
    | .error e => .error e
    | .ok (out, evs) =>
      match processDayFiles env cfg d rest with
      | .error e => .error e
      | .ok (outs, evss) => .ok (out :: outs, evs ++ evss)

/-- `process_single_day` (main.py lines 90-192): list the files for the
date; with no files return the empty result; otherwise run the per-file
loop. -/
def process_single_day (env : Env) (cfg : Config) (d : Date) :
    Except String (List String × List Event) :=
  if ((list_hf_files_for_date env cfg.repo_id d).1).isEmpty then .ok ([], [])
  else processDayFiles env cfg d (list_hf_files_for_date env cfg.repo_id d).1

/-- The outcome list of a day run, with a propagated exception
contributing nothing (it aborts the whole run). -/
def okOutcomes (r : Except String (List String × List Event)) : List String :=
  match r with
  | .ok (res, _) => res
  | .error _ => []

/-- The outcome line of one file (total projection of `processFile`). -/
def outcomeOf (r : Except String (String × List Event)) : String :=
  match r with
  | .ok (o, _) => o
  | .error _ => ""

/-- The events of one file (total projection of `processFile`). -/
def eventsOf (r : Except String (String × List Event)) : List Event :=
  match r with
  | .ok (_, e) => e
  | .error _ => []

/-- The `while date <= end` loop of `run_pipeline` (main.py lines
223-237), with one unit of fuel per iteration.  The wrapper
`run_pipeline` supplies `dateOrd end + 1 - dateOrd start` fuel, which
`dateOrd_lt_nextDay` shows is enough for every iteration the Python loop
performs. -/
def runDaysFuel (env : Env) (cfg : Config) :
    Nat → Date → Date → Except String (List String)
  | 0, _, _ => .ok []
  | n + 1, d, e =>
    if dateLe d e then
      match process_single_day env cfg d with
      | .error err => .error err
      | .ok (res, _) =>
        match runDaysFuel env cfg n (nextDay d) e with
        | .error err => .error err
        | .ok rest => .ok (res ++ rest)
    else .ok []

/-- The day sequence the loop iterates over, with the same fuel policy. -/
def dateRangeFuel : Nat → Date → Date → List Date
  | 0, _, _ => []
  | n + 1, d, e => if dateLe d e then d :: dateRangeFuel n (nextDay d) e else []

/-- The closed day interval `[d, e]` in ascending order. -/
def dateRange (d e : Date) : List Date :=
  dateRangeFuel (dateOrd e + 1 - dateOrd d) d e

/-- What a `run_pipeline` call yields: the value the Python function
returns (`ret`, always `None` in the source — there is no `return`
statement), and the summary lines it prints at the end. -/
structure RunResult where
  ret : Option (List String)
  summary : List String
deriving DecidableEq

/-- `run_pipeline` (main.py lines 200-241): iterate the closed date range
day by day, extend `results` with each day's outcomes, print the summary;
a propagated exception aborts the run. -/
def run_pipeline (env : Env) (cfg : Config) (start end_ : Date) :
    Except String RunResult :=
  match runDaysFuel env cfg (dateOrd end_ + 1 - dateOrd start) start end_ with
  | .error e => .error e
  | .ok results => .ok { ret := none, summary := results }

/-! ## Spec-side definitions for refinement comparisons -/

/-- The destination-key layout in the words of the original claim for the
destination key: the archive **suffix** `".zarr.zip"` of the filename is
replaced by `".nc"` (`none` when the filename does not carry the archive
suffix).  Compared against the source's `convertedS3Key` below. -/
def specSuffixKey (pre : String) (d : Date) (fn : String) : Option String :=
  if strEndsWith fn ".zarr.zip" then
    some (pre ++ "/" ++ Nat.repr d.year ++ "/" ++ pad2 d.month ++ "/"
      ++ pad2 d.day ++ "/" ++ (⟨fn.data.take (fn.data.length - 9)⟩ ++ ".nc"))
  else none

/-- Decimal digits left-padded with `'0'` to the given width (the spec's
"zero-padded" wording, written independently of the source's `pad2`). -/
def leftPadZero (w : Nat) (s : String) : String :=
  ⟨List.replicate (w - s.length) '0' ++ s.data⟩

/-- The destination-key layout in the words of the amended claim:
`<prefix>/<year>/<zero-padded-month>/<zero-padded-day>/<filename with
every ".zarr.zip" occurrence replaced by ".nc">`. -/
def specDestKey (pre : String) (d : Date) (fn : String) : String :=
  pre ++ "/" ++ Nat.repr d.year ++ "/" ++ leftPadZero 2 (Nat.repr d.month)
    ++ "/" ++ leftPadZero 2 (Nat.repr d.day) ++ "/" ++ convertedFilename fn

/-! ## Concrete fixtures used by witnesses and counterexamples -/

/-- The date 2025-07-01 of the spec's worked scenario. -/
def dJuly1 : Date := ⟨2025, 7, 1, by decide, by decide, by decide, by decide⟩

/-- An environment in which every destination key already exists, listing
finds one archive file (plus one non-archive entry), and every stage
succeeds. -/
def envSkip : Env :=
  { head := fun _ _ => .found
    listTree := fun _ _ => .ok ["data/2025/7/1/a.zarr.zip", "data/2025/7/1/readme.md"]
    downloadOk := fun _ => true
    convert := fun p => .ok (extractOutputPath p)
    uploadOk := fun _ _ _ => true
    removeRaisesOSError := fun _ => false }

/-- An environment in which no destination key exists and every stage
succeeds. -/
def envFresh : Env :=
  { envSkip with head := fun _ _ => .clientError "404" }

/-- An environment whose listing call raises. -/
def envListErr : Env :=
  { envSkip with listTree := fun _ _ => .error "GatedRepoError" }

/-- The baseline run configuration of the fixtures. -/
def cfgBase : Config :=
  { repo_id := "r", local_root := "/stage", s3_bucket := "bkt",
    s3_prefix_ := "p", force := false, dryrun := false }

/-- `cfgBase` with `force=true`. -/
def cfgForce : Config := { cfgBase with force := true }

/-! ## General lemmas about the embedding -/

theorem replaceAllFuel_length_le {pat rep : List Char}
    (hlen : rep.length ≤ pat.length) :
    ∀ n s, (replaceAllFuel pat rep n s).length ≤ s.length := by
  intro n
  induction n with
  | zero => intro s; cases s <;> simp [replaceAllFuel]
  | succ n ih =>
    intro s
    cases s with
    | nil => simp [replaceAllFuel]
    | cons c rest =>
      simp only [replaceAllFuel]
      split
      · rename_i h
        have hpre : pat.length ≤ (c :: rest).length :=
          (List.isPrefixOf_iff_prefix.mp h.2).length_le
        have hrec := ih ((c :: rest).drop pat.length)
        simp only [List.length_append, List.length_drop, List.length_cons] at *
        omega
      · have hrec := ih rest
        simp only [List.length_cons]
        omega

theorem replaceAllFuel_length_lt {pat rep : List Char}
    (hlt : rep.length < pat.length) :
    ∀ n s, s.length ≤ n → pat.isSuffixOf s →
      (replaceAllFuel pat rep n s).length < s.length := by
  intro n
  induction n with
  | zero =>
    intro s hn hsuf
    cases s with
    | nil =>
      have : pat = [] := List.suffix_nil.mp (List.isSuffixOf_iff_suffix.mp hsuf)
      subst this; simp at hlt
    | cons c rest => simp at hn
  | succ n ih =>
    intro s hn hsuf
    cases s with
    | nil =>
      have : pat = [] := List.suffix_nil.mp (List.isSuffixOf_iff_suffix.mp hsuf)
      subst this; simp at hlt
    | cons c rest =>
      simp only [replaceAllFuel]
      split
      · rename_i h
        have hpre : pat.length ≤ (c :: rest).length :=
          (List.isPrefixOf_iff_prefix.mp h.2).length_le
        have hrec := replaceAllFuel_length_le (le_of_lt hlt) n ((c :: rest).drop pat.length)
        have hpat : pat ≠ [] := h.1
        have hpos : 1 ≤ pat.length := by
          cases hp : pat with
          | nil => exact absurd hp hpat
          | cons a l => simp
        simp only [List.length_append, List.length_drop, List.length_cons] at *
        omega
      · rename_i h
        have hsuf' : pat <:+ rest := by
          rcases List.suffix_cons_iff.mp (List.isSuffixOf_iff_suffix.mp hsuf) with heq | hs
          · exfalso
            apply h
            constructor
            · intro hnil
              subst hnil
              exact List.cons_ne_nil c rest heq.symm
            · rw [heq]
              exact List.isPrefixOf_iff_prefix.mpr List.prefix_rfl
          · exact hs
        have := ih rest (by simpa using Nat.lt_succ_iff.mp (Nat.lt_of_lt_of_le (Nat.lt_succ_of_le le_rfl) (by simpa using hn))) (List.isSuffixOf_iff_suffix.mpr hsuf')
        simp only [List.length_cons]
        omega

/-- Replacing the archive suffix strictly shortens a filename that carries
it, hence changes it. -/
theorem convertedFilename_ne {fn : String}
    (h : strEndsWith fn ".zarr.zip" = true) : convertedFilename fn ≠ fn := by
  intro heq
  have hlt := @replaceAllFuel_length_lt ".zarr.zip".data ".nc".data
      (by decide) fn.data.length fn.data le_rfl h
  have h2 : replaceAllFuel ".zarr.zip".data ".nc".data fn.data.length fn.data
      = fn.data := congrArg String.data heq
  rw [h2] at hlt
  exact lt_irrefl _ hlt

theorem convertedFilename_length_lt {fn : String}
    (h : strEndsWith fn ".zarr.zip" = true) :
    (convertedFilename fn).length < fn.length := by
  have hlt := @replaceAllFuel_length_lt ".zarr.zip".data ".nc".data
      (by decide) fn.data.length fn.data le_rfl h
  exact hlt

/-- `pyJoin` appends equal-length tails to equal-length results. -/
theorem pyJoin_length_inj {a x y : String} (h : pyJoin a x = pyJoin a y) :
    x.length = y.length := by
  have hl := congrArg String.length h
  unfold pyJoin at hl
  split at hl
  · exact hl
  · split at hl <;> simp only [String.length_append] at hl <;> omega

/-- The second argument of `pyJoin` is a suffix of the result. -/
theorem pyJoin_suffix (a b : String) : b.data <:+ (pyJoin a b).data := by
  unfold pyJoin
  split
  · exact List.suffix_rfl
  · split <;> (rw [String.data_append]; exact List.suffix_append _ _)

/-- A string ending in `".zarr.zip"` does not end in `".nc"`. -/
theorem not_nc_of_zarrZip {s : String}
    (h : strEndsWith s ".zarr.zip" = true) : strEndsWith s ".nc" = false := by
  by_contra hne
  have hnc : strEndsWith s ".nc" = true := by
    cases hv : strEndsWith s ".nc" with
    | false => exact absurd hv hne
    | true => rfl
  have h1 : ".zarr.zip".data <:+ s.data := List.isSuffixOf_iff_suffix.mp h
  have h2 : ".nc".data <:+ s.data := List.isSuffixOf_iff_suffix.mp hnc
  obtain ⟨t1, ht1⟩ := h1
  obtain ⟨t2, ht2⟩ := h2
  have e1 : s.data.getLast? = some 'p' := by
    rw [← ht1, List.getLast?_append_of_ne_nil t1 (by decide)]; decide
  have e2 : s.data.getLast? = some 'c' := by
    rw [← ht2, List.getLast?_append_of_ne_nil t2 (by decide)]; decide
  rw [e1] at e2
  exact absurd (Option.some.inj e2) (by decide)

/-- When no existence check raises a non-`ClientError` exception, the gate
returns a result. -/
theorem gateStep_isOk {env : Env} {cfg : Config} {key : String}
    (hhead : ∀ b k m, env.head b k ≠ HeadResult.otherError m) :
    ∃ b evs, gateStep env cfg key = .ok (b, evs) := by
  unfold gateStep
  split
  · exact ⟨false, [], rfl⟩
  · cases hh : env.head cfg.s3_bucket key with
    | found =>
      exact ⟨true, [Event.headCheck cfg.s3_bucket key], rfl⟩
    | clientError c =>
      exact ⟨false, [Event.headCheck cfg.s3_bucket key], rfl⟩
    | otherError m => exact absurd hh (hhead _ _ m)

/-- When no existence check raises a non-`ClientError` exception, every
file yields exactly one outcome. -/
theorem processFile_isOk {env : Env} (cfg : Config) (d : Date) (rp : String)
    (hhead : ∀ b k m, env.head b k ≠ HeadResult.otherError m) :
    processFile env cfg d rp =
      .ok (outcomeOf (processFile env cfg d rp),
           eventsOf (processFile env cfg d rp)) := by
  obtain ⟨b, evs, hg⟩ := @gateStep_isOk env cfg
      (convertedS3Key cfg.s3_prefix_ d (basename rp)) hhead
  cases b <;> simp [processFile, hg, outcomeOf, eventsOf]

/-- Every outcome line is one of the five statuses followed by the date
and the filename. -/
theorem processFile_outcome_shape {env : Env} (cfg : Config) (d : Date)
    (rp : String)
    (hhead : ∀ b k m, env.head b k ≠ HeadResult.otherError m) :
    ∃ st, st ∈ (["SKIPPED", "FAILED-DOWNLOAD", "FAILED-CONVERT",
                 "FAILED-UPLOAD", "OK"] : List String) ∧
      outcomeOf (processFile env cfg d rp) =
        st ++ " " ++ dateStr d ++ " " ++ basename rp := by
  obtain ⟨b, evs, hg⟩ := @gateStep_isOk env cfg
      (convertedS3Key cfg.s3_prefix_ d (basename rp)) hhead
  cases b with
  | true =>
    refine ⟨"SKIPPED", by simp, ?_⟩
    simp [processFile, hg, outcomeOf]
  | false =>
    simp only [processFile, hg, outcomeOf]
    unfold afterGate
    split
    · exact ⟨"FAILED-DOWNLOAD", by simp, rfl⟩
    · split
      · exact ⟨"FAILED-CONVERT", by simp, rfl⟩
      · split
        · exact ⟨"FAILED-UPLOAD", by simp, rfl⟩
        · exact ⟨"OK", by simp, rfl⟩

/-- The per-file loop produces exactly the per-file outcomes, in listing
order, independent of each other. -/
theorem processDayFiles_map {env : Env} (cfg : Config) (d : Date)
    (hhead : ∀ b k m, env.head b k ≠ HeadResult.otherError m) :
    ∀ files, processDayFiles env cfg d files =
      .ok (files.map (fun rp => outcomeOf (processFile env cfg d rp)),
           files.flatMap (fun rp => eventsOf (processFile env cfg d rp))) := by
  intro files
  induction files with
  | nil => simp [processDayFiles]
  | cons rp rest ih =>
    rw [processDayFiles, processFile_isOk cfg d rp hhead, ih]
    simp

/-- `process_single_day` in map form. -/
theorem process_single_day_map {env : Env} (cfg : Config) (d : Date)
    (hhead : ∀ b k m, env.head b k ≠ HeadResult.otherError m) :
    process_single_day env cfg d =
      .ok (((list_hf_files_for_date env cfg.repo_id d).1).map
             (fun rp => outcomeOf (processFile env cfg d rp)),
           ((list_hf_files_for_date env cfg.repo_id d).1).flatMap
             (fun rp => eventsOf (processFile env cfg d rp))) := by
  unfold process_single_day
  split
  · rename_i hempty
    rw [List.isEmpty_iff] at hempty
    simp [hempty]
  · exact processDayFiles_map cfg d hhead _

/-- The fuelled range loop concatenates the per-day outcome lists over the
fuelled day range, for any fuel. -/
theorem runDaysFuel_eq {env : Env} (cfg : Config)
    (hhead : ∀ b k m, env.head b k ≠ HeadResult.otherError m) :
    ∀ n (d e : Date), runDaysFuel env cfg n d e =
      .ok ((dateRangeFuel n d e).flatMap
            (fun dd => okOutcomes (process_single_day env cfg dd))) := by
  intro n
  induction n with
  | zero => intro d e; simp [runDaysFuel, dateRangeFuel]
  | succ n ih =>
    intro d e
    rw [runDaysFuel, dateRangeFuel]
    split
    · rw [process_single_day_map cfg d hhead, ih (nextDay d) e]
      simp [okOutcomes, process_single_day_map cfg d hhead]
    · simp

/-- The fuelled day range is strictly ascending. -/
theorem dateRangeFuel_chain : ∀ n (d e : Date),
    List.Chain' dateLt (dateRangeFuel n d e) := by
  intro n
  induction n with
  | zero => intro d e; simp [dateRangeFuel]
  | succ n ih =>
    intro d e
    rw [dateRangeFuel]
    split
    · rw [List.chain'_cons']
      refine ⟨?_, ih (nextDay d) e⟩
      intro y hy
      cases n with
      | zero => simp [dateRangeFuel] at hy
      | succ m =>
        rw [dateRangeFuel] at hy
        split at hy
        · simp at hy
          rw [← hy]
          exact dateLt_nextDay d
        · simp at hy
    · exact List.chain'_nil

/-- Any two sufficient fuels produce the same day range. -/
theorem dateRangeFuel_irrel : ∀ n m (d e : Date),
    dateOrd e + 1 - dateOrd d ≤ n → dateOrd e + 1 - dateOrd d ≤ m →
    dateRangeFuel n d e = dateRangeFuel m d e := by
  intro n
  induction n with
  | zero =>
    intro m d e hn _
    have hde : ¬ dateLe d e := by
      intro hle
      have := dateOrd_le_of_dateLe hle
      omega
    cases m with
    | zero => rfl
    | succ m => rw [dateRangeFuel, dateRangeFuel, if_neg hde]
  | succ n ih =>
    intro m d e hn hm
    by_cases hde : dateLe d e
    · have hord := dateOrd_le_of_dateLe hde
      cases m with
      | zero => omega
      | succ m =>
        rw [dateRangeFuel, dateRangeFuel, if_pos hde, if_pos hde]
        have hnx := dateOrd_lt_nextDay d
        exact congrArg _ (ih m (nextDay d) e (by omega) (by omega))
    · cases m with
      | zero => rw [dateRangeFuel, dateRangeFuel, if_neg hde]
      | succ m => rw [dateRangeFuel, dateRangeFuel, if_neg hde, if_neg hde]

/-- Unrolling of the closed day interval: one day per iteration, in
ascending order. -/
theorem dateRange_cons {d e : Date} (h : dateLe d e) :
    dateRange d e = d :: dateRange (nextDay d) e := by
  have hord := dateOrd_le_of_dateLe h
  have hnx := dateOrd_lt_nextDay d
  unfold dateRange
  have h1 : dateOrd e + 1 - dateOrd d = (dateOrd e - dateOrd d) + 1 := by omega
  rw [h1, dateRangeFuel, if_pos h]
  exact congrArg _ (dateRangeFuel_irrel _ _ _ _ (by omega) (by omega))

theorem dateRange_nil {d e : Date} (h : ¬ dateLe d e) : dateRange d e = [] := by
  unfold dateRange
  cases hn : dateOrd e + 1 - dateOrd d with
  | zero => rfl
  | succ m => rw [dateRangeFuel, if_neg h]

/-! ## The claims -/

/-- C1 (counterexample): a transport/auth failure surfaced as a
`ClientError` (here with code `"AccessDenied"`, which is not the
not-found code `"404"`) is not propagated by `s3_key_exists`: it is
converted into the result `false`.  This refutes the claim that every
error other than not-found propagates instead of returning `false`. -/
theorem s3_key_exists_auth_error_cex :
    s3_key_exists (HeadResult.clientError "AccessDenied") = .ok false ∧
    "AccessDenied" ≠ "404" :=
  ⟨rfl, by decide⟩

/-- C1 (amended): `s3_key_exists` never raises for a not-found condition
(that is the normal `false` result), but it likewise converts every other
`ClientError` — including transport/auth failures reported through
`ClientError` — into `false`; only an exception that is not a
`ClientError` propagates to the caller. -/
theorem s3_key_exists_clienterror_behavior :
    s3_key_exists HeadResult.found = .ok true ∧
    (∀ code, s3_key_exists (HeadResult.clientError code) = .ok false) ∧
    (∀ msg, s3_key_exists (HeadResult.otherError msg) = .error msg) :=
  ⟨rfl, fun _ => rfl, fun _ => rfl⟩

/-- C9: on any listing failure the Catalog Lister returns an empty
sequence together with a warning instead of aborting the range; on
success it returns exactly the listed entries whose names end in
`".zarr.zip"`, in listing order; and a day whose file list is empty
yields the empty outcome sequence from the Day Processor, not an
error. -/
theorem listing_failure_empty (env : Env) (repo : String) (d : Date)
    (cfg : Config) :
    (∀ e, env.listTree repo (hfFolderPath d) = .error e →
      list_hf_files_for_date env repo d =
        ([], ["Could not list HF directory " ++ hfFolderPath d ++ ": " ++ e])) ∧
    (∀ entries, env.listTree repo (hfFolderPath d) = .ok entries →
      list_hf_files_for_date env repo d =
        (entries.filter (fun p => strEndsWith p ".zarr.zip"), [])) ∧
    ((list_hf_files_for_date env cfg.repo_id d).1 = [] →
      process_single_day env cfg d = .ok ([], [])) := by
  refine ⟨?_, ?_, ?_⟩
  · intro e he; simp [list_hf_files_for_date, he]
  · intro entries he; simp [list_hf_files_for_date, he]
  · intro hnil
    unfold process_single_day
    rw [hnil]
    rfl

/-- C9 witness: the theorem applied at the concrete fixtures — a failing
listing yields the empty file list plus a warning and an empty day
result, and a successful listing is filtered to the archive entries. -/
theorem listing_failure_empty_witness :
    list_hf_files_for_date envListErr "r" dJuly1 =
      ([], ["Could not list HF directory data/2025/7/1: GatedRepoError"]) ∧
    process_single_day envListErr cfgBase dJuly1 = .ok ([], []) ∧
    list_hf_files_for_date envSkip "r" dJuly1 =
      (["data/2025/7/1/a.zarr.zip"], []) :=
  ⟨by rw [(listing_failure_empty envListErr "r" dJuly1 cfgBase).1
        "GatedRepoError" rfl]; rfl,
   (listing_failure_empty envListErr "r" dJuly1 cfgBase).2.2 rfl,
   by rw [(listing_failure_empty envSkip "r" dJuly1 cfgBase).2.1
        ["data/2025/7/1/a.zarr.zip", "data/2025/7/1/readme.md"] rfl]; rfl⟩

/-- C3 (counterexample): at a concrete single-day run the outcome list is
nonempty and becomes the printed summary, but the value `run_pipeline`
returns is `None` — the aggregate outcome sequence is not returned as the
function's result value. -/
theorem run_pipeline_returns_none_cex :
    run_pipeline envSkip cfgBase dJuly1 dJuly1 =
      .ok { ret := none, summary := ["SKIPPED 2025-07-01 a.zarr.zip"] } ∧
    (none : Option (List String)) ≠ some ["SKIPPED 2025-07-01 a.zarr.zip"] :=
  ⟨rfl, by simp⟩

/-- C3 (amended): for every `start ≤ end` (and any dates at all) the Range
Controller iterates the closed interval one calendar day at a time in
strictly ascending order, accumulates the per-day outcome lists in date
order (file-listing order within a date, by `process_single_day_map`) and
makes this concatenation the printed summary; the function's return value
is `None`, not the outcome list.  The hypothesis excludes a
non-`ClientError` existence-check exception, which would abort the
run. -/
theorem run_pipeline_summary_order (env : Env) (cfg : Config)
    (start end_ : Date)
    (hhead : ∀ b k m, env.head b k ≠ HeadResult.otherError m) :
    run_pipeline env cfg start end_ =
      .ok { ret := none,
            summary := (dateRange start end_).flatMap
                (fun d => okOutcomes (process_single_day env cfg d)) } ∧
    List.Chain' dateLt (dateRange start end_) ∧
    (dateLe start end_ →
      dateRange start end_ = start :: dateRange (nextDay start) end_) ∧
    (¬ dateLe start end_ → dateRange start end_ = []) := by
  refine ⟨?_, dateRangeFuel_chain _ _ _,
    fun h => dateRange_cons h, fun h => dateRange_nil h⟩
  unfold run_pipeline
  rw [runDaysFuel_eq cfg hhead]
  rfl

/-- The download stage records either a dryrun write at `local_original`
or the real download to the repo-relative path under `./`. -/
theorem downloadStep_snd (env : Env) (cfg : Config) (rp lo : String) :
    (downloadStep env cfg rp lo).2 = Event.dryrunWrite lo ∨
    (downloadStep env cfg rp lo).2 = Event.download rp (pyJoin "./" rp) := by
  unfold downloadStep
  split
  · exact Or.inl rfl
  · split
    · exact Or.inr rfl
    · exact Or.inr rfl

/-- The upload stage records either nothing (dryrun) or one upload to the
destination key. -/
theorem uploadStep_snd (env : Env) (cfg : Config) (cp key : String) :
    (uploadStep env cfg cp key).2 = [] ∨
    (uploadStep env cfg cp key).2 = [Event.upload cp cfg.s3_bucket key] := by
  unfold uploadStep
  split
  · exact Or.inl rfl
  · exact Or.inr rfl

/-- The events of the post-gate stages extend the gate's events and
consist only of download/convert/upload/cleanup effects; the only removal
target is `local_original` and the only upload destination is the
computed key. -/
theorem afterGate_events (env : Env) (cfg : Config) (d : Date)
    (rp fn lo key : String) (evs : List Event) :
    ∃ tail, (afterGate env cfg d rp fn lo key evs).2 = evs ++ tail ∧
      (∀ b k, Event.headCheck b k ∉ tail) ∧
      (∀ dir, Event.mkdir dir ∉ tail) ∧
      (∀ p, Event.removeFile p ∈ tail → p = lo) ∧
      (∀ l b k, Event.upload l b k ∈ tail → b = cfg.s3_bucket ∧ k = key) := by
  have hdev := downloadStep_snd env cfg rp lo
  unfold afterGate
  rcases hstep : downloadStep env cfg rp lo with ⟨dpath, dev⟩
  rw [hstep] at hdev
  simp only at hdev
  cases dpath with
  | none =>
    refine ⟨[dev], by simp, ?_, ?_, ?_, ?_⟩ <;>
      (rcases hdev with rfl | rfl <;> simp)
  | some dp =>
    cases hc : env.convert dp with
    | error e =>
      refine ⟨[dev, Event.convertCall dp], by simp [hc], ?_, ?_, ?_, ?_⟩ <;>
        (rcases hdev with rfl | rfl <;> simp)
    | ok cp =>
      have hup := uploadStep_snd env cfg cp key
      rcases hupstep : uploadStep env cfg cp key with ⟨ub, uevs⟩
      rw [hupstep] at hup
      simp only at hup
      cases ub with
      | false =>
        refine ⟨[dev, Event.convertCall dp] ++ uevs, by simp [hc, hupstep],
          ?_, ?_, ?_, ?_⟩ <;>
          (rcases hdev with rfl | rfl <;> rcases hup with rfl | rfl <;> simp)
      | true =>
        refine ⟨[dev, Event.convertCall dp] ++ uevs ++ [Event.removeFile lo],
          by simp [hc, hupstep], ?_, ?_, ?_, ?_⟩ <;>
          (rcases hdev with rfl | rfl <;> rcases hup with rfl | rfl <;> simp)

/-- With `force`, `processFile` goes straight to the post-gate stages with
only the `mkdir` event recorded. -/
theorem processFile_force {env : Env} {cfg : Config} (d : Date) (rp : String)
    (hforce : cfg.force = true) :
    processFile env cfg d rp =
      .ok (afterGate env cfg d rp (basename rp)
            (pyJoin (localDir cfg.local_root d) (basename rp))
            (convertedS3Key cfg.s3_prefix_ d (basename rp))
            [Event.mkdir (localDir cfg.local_root d)]) := by
  simp [processFile, gateStep, hforce]

/-- C2: the idempotency gate.  With `force=false` and the Existence Oracle
reporting the destination key present, the file yields exactly the
`SKIPPED` outcome and the only side effects are the staging `mkdir` and
the existence check itself — no fetch, convert or store.  With
`force=true` the existence check is never consulted (no `headCheck` event
ever occurs) and the stage pipeline runs regardless of prior presence:
the download is attempted, a successful download is passed to the
converter, and a successful conversion is uploaded to the destination
key. -/
theorem idempotency_gate (env : Env) (cfg : Config) (d : Date) (rp : String) :
    (cfg.force = false →
      env.head cfg.s3_bucket (convertedS3Key cfg.s3_prefix_ d (basename rp)) =
        HeadResult.found →
      processFile env cfg d rp =
        .ok ("SKIPPED " ++ dateStr d ++ " " ++ basename rp,
             [Event.mkdir (localDir cfg.local_root d),
              Event.headCheck cfg.s3_bucket
                (convertedS3Key cfg.s3_prefix_ d (basename rp))])) ∧
    (cfg.force = true →
      (∀ b k, Event.headCheck b k ∉ eventsOf (processFile env cfg d rp)) ∧
      (cfg.dryrun = false →
        Event.download rp (pyJoin "./" rp) ∈
          eventsOf (processFile env cfg d rp)) ∧
      (cfg.dryrun = false → env.downloadOk rp = true →
        Event.convertCall (pyJoin "./" rp) ∈
          eventsOf (processFile env cfg d rp)) ∧
      (cfg.dryrun = false → env.downloadOk rp = true →
        ∀ cp, env.convert (pyJoin "./" rp) = .ok cp →
          Event.upload cp cfg.s3_bucket
              (convertedS3Key cfg.s3_prefix_ d (basename rp)) ∈
            eventsOf (processFile env cfg d rp))) := by
  constructor
  · intro hforce hfound
    simp [processFile, gateStep, hforce, hfound, s3_key_exists]
  · intro hforce
    have hpf := @processFile_force env cfg d rp hforce
    refine ⟨?_, ?_, ?_, ?_⟩
    · intro b k
      rw [hpf]
      obtain ⟨tail, htail, hhc, -, -, -⟩ := afterGate_events env cfg d rp
        (basename rp) (pyJoin (localDir cfg.local_root d) (basename rp))
        (convertedS3Key cfg.s3_prefix_ d (basename rp))
        [Event.mkdir (localDir cfg.local_root d)]
      simp only [eventsOf, htail]
      intro hmem
      rcases List.mem_append.mp hmem with h1 | h2
      · simp at h1
      · exact hhc b k h2
    · intro hdry
      rw [hpf]
      simp only [eventsOf]
      unfold afterGate
      by_cases hok : env.downloadOk rp
      · simp only [downloadStep, hdry, Bool.false_eq_true, if_false, hok,
          if_true]
        cases hc : env.convert (pyJoin "./" rp) with
        | error e => simp
        | ok cp =>
          rcases uploadStep_snd env cfg cp
              (convertedS3Key cfg.s3_prefix_ d (basename rp)) with h | h <;>
            rcases hupstep : uploadStep env cfg cp
              (convertedS3Key cfg.s3_prefix_ d (basename rp)) with ⟨ub, uevs⟩ <;>
            cases ub <;> simp_all
      · simp only [downloadStep, hdry, Bool.false_eq_true, if_false, hok,
          if_true]
        simp
    · intro hdry hok
      rw [hpf]
      simp only [eventsOf]
      unfold afterGate
      simp only [downloadStep, hdry, Bool.false_eq_true, if_false, hok, if_true]
      cases hc : env.convert (pyJoin "./" rp) with
      | error e => simp
      | ok cp =>
        rcases uploadStep_snd env cfg cp
            (convertedS3Key cfg.s3_prefix_ d (basename rp)) with h | h <;>
          rcases hupstep : uploadStep env cfg cp
            (convertedS3Key cfg.s3_prefix_ d (basename rp)) with ⟨ub, uevs⟩ <;>
          cases ub <;> simp_all
    · intro hdry hok cp hc
      rw [hpf]
      simp only [eventsOf]
      unfold afterGate
      simp only [downloadStep, hdry, Bool.false_eq_true, if_false, hok, if_true]
      rw [hc]
      simp only [uploadStep, hdry, Bool.false_eq_true, if_false]
      cases hu : env.uploadOk cp cfg.s3_bucket
          (convertedS3Key cfg.s3_prefix_ d (basename rp)) <;> simp

/-- C2 witness: the theorem applied at the concrete fixtures — the
existing key is skipped with only mkdir and the existence check
performed; under `force` no existence check happens and the download is
attempted. -/
theorem idempotency_gate_witness :
    processFile envSkip cfgBase dJuly1 "data/2025/7/1/a.zarr.zip" =
      .ok ("SKIPPED 2025-07-01 a.zarr.zip",
           [Event.mkdir "/stage/2025/7/1",
            Event.headCheck "bkt" "p/2025/07/01/a.nc"]) ∧
    (∀ b k, Event.headCheck b k ∉
      eventsOf (processFile envSkip cfgForce dJuly1 "data/2025/7/1/a.zarr.zip")) ∧
    Event.download "data/2025/7/1/a.zarr.zip" "./data/2025/7/1/a.zarr.zip" ∈
      eventsOf (processFile envSkip cfgForce dJuly1 "data/2025/7/1/a.zarr.zip") :=
  ⟨by rw [(idempotency_gate envSkip cfgBase dJuly1
        "data/2025/7/1/a.zarr.zip").1 rfl rfl]; rfl,
   ((idempotency_gate envSkip cfgForce dJuly1
        "data/2025/7/1/a.zarr.zip").2 rfl).1,
   ((idempotency_gate envSkip cfgForce dJuly1
        "data/2025/7/1/a.zarr.zip").2 rfl).2.1 rfl⟩

/-- C4: per-file failure isolation.  Provided no existence check raises a
non-`ClientError` exception (the one uncaught error source, outside the
claim's three failure kinds): every listed file of a day produces exactly
one outcome, computed independently of its siblings (the day result is
the per-file map over the listing, so no file's failure affects another
file or day); every outcome is one of the five terminal statuses; and the
final report length equals the total number of listed files across the
range. -/
theorem per_file_outcome_isolation (env : Env) (cfg : Config)
    (hhead : ∀ b k m, env.head b k ≠ HeadResult.otherError m) :
    (∀ d, okOutcomes (process_single_day env cfg d) =
        ((list_hf_files_for_date env cfg.repo_id d).1).map
          (fun rp => outcomeOf (processFile env cfg d rp)) ∧
      (okOutcomes (process_single_day env cfg d)).length =
        ((list_hf_files_for_date env cfg.repo_id d).1).length) ∧
    (∀ d rp, ∃ st, st ∈ (["SKIPPED", "FAILED-DOWNLOAD", "FAILED-CONVERT",
        "FAILED-UPLOAD", "OK"] : List String) ∧
      outcomeOf (processFile env cfg d rp) =
        st ++ " " ++ dateStr d ++ " " ++ basename rp) ∧
    (∀ start end_, ∃ r, run_pipeline env cfg start end_ = .ok r ∧
      r.summary.length =
        ((dateRange start end_).map
          (fun dd => ((list_hf_files_for_date env cfg.repo_id dd).1).length)).sum) := by
  have hday : ∀ d, okOutcomes (process_single_day env cfg d) =
      ((list_hf_files_for_date env cfg.repo_id d).1).map
        (fun rp => outcomeOf (processFile env cfg d rp)) := by
    intro d
    rw [process_single_day_map cfg d hhead]
    rfl
  refine ⟨fun d => ⟨hday d, by rw [hday d]; simp⟩,
    fun d rp => processFile_outcome_shape cfg d rp hhead, ?_⟩
  intro start end_
  refine ⟨_, by unfold run_pipeline; rw [runDaysFuel_eq cfg hhead], ?_⟩
  simp only [List.length_flatMap]
  congr 1
  refine List.map_congr_left (fun dd _ => ?_)
  simp only [Function.comp_apply]
  rw [hday dd]
  simp

/-- C4 witness: the theorem applied at the concrete fixtures (a fresh
destination, one archive file listed on 2025-07-01). -/
theorem per_file_outcome_isolation_witness :
    (∀ b k m, envFresh.head b k ≠ HeadResult.otherError m) ∧
    okOutcomes (process_single_day envFresh cfgBase dJuly1) =
      ((list_hf_files_for_date envFresh cfgBase.repo_id dJuly1).1).map
        (fun rp => outcomeOf (processFile envFresh cfgBase dJuly1 rp)) ∧
    (okOutcomes (process_single_day envFresh cfgBase dJuly1)).length =
      ((list_hf_files_for_date envFresh cfgBase.repo_id dJuly1).1).length :=
  ⟨fun _ _ m h => by simp [envFresh, envSkip] at h,
   ((per_file_outcome_isolation envFresh cfgBase
      (fun _ _ m h => by simp [envFresh, envSkip] at h)).1 dJuly1).1,
   ((per_file_outcome_isolation envFresh cfgBase
      (fun _ _ m h => by simp [envFresh, envSkip] at h)).1 dJuly1).2⟩

/-- Structure of a successful per-file run's event list: the staging
`mkdir`, then at most one existence check on the destination key, then
only download/convert/upload/cleanup effects with `local_original` the
only removal target and the destination key the only upload key. -/
theorem processFile_ok_events (env : Env) (cfg : Config) (d : Date)
    (rp out : String) (evs : List Event)
    (h : processFile env cfg d rp = .ok (out, evs)) :
    ∃ gevs tail,
      evs = Event.mkdir (localDir cfg.local_root d) :: (gevs ++ tail) ∧
      (gevs = [] ∨ gevs = [Event.headCheck cfg.s3_bucket
          (convertedS3Key cfg.s3_prefix_ d (basename rp))]) ∧
      (∀ b k, Event.headCheck b k ∉ tail) ∧
      (∀ dir, Event.mkdir dir ∉ tail) ∧
      (∀ p, Event.removeFile p ∈ tail →
          p = pyJoin (localDir cfg.local_root d) (basename rp)) ∧
      (∀ l b k, Event.upload l b k ∈ tail →
          b = cfg.s3_bucket ∧
          k = convertedS3Key cfg.s3_prefix_ d (basename rp)) := by
  unfold processFile at h
  dsimp only at h
  cases hg : gateStep env cfg (convertedS3Key cfg.s3_prefix_ d (basename rp)) with
  | error e => rw [hg] at h; cases h
  | ok p =>
    rcases p with ⟨b, gevs⟩
    have hgevs : gevs = [] ∨ gevs = [Event.headCheck cfg.s3_bucket
        (convertedS3Key cfg.s3_prefix_ d (basename rp))] := by
      unfold gateStep at hg
      split at hg
      · simp only [Except.ok.injEq, Prod.mk.injEq] at hg
        exact Or.inl hg.2.symm
      · split at hg
        · cases hg
        · simp only [Except.ok.injEq, Prod.mk.injEq] at hg
          exact Or.inr hg.2.symm
    rw [hg] at h
    cases b with
    | true =>
      simp only [Except.ok.injEq, Prod.mk.injEq] at h
      refine ⟨gevs, [], ?_, hgevs, by simp, by simp, by simp, by simp⟩
      rw [← h.2]
      simp
    | false =>
      obtain ⟨tail, htail, hhc, hmk, hrm, hup⟩ := afterGate_events env cfg d rp
        (basename rp) (pyJoin (localDir cfg.local_root d) (basename rp))
        (convertedS3Key cfg.s3_prefix_ d (basename rp))
        (Event.mkdir (localDir cfg.local_root d) :: gevs)
      simp only [Except.ok.injEq] at h
      refine ⟨gevs, tail, ?_, hgevs, hhc, hmk, hrm, hup⟩
      have he := congrArg Prod.snd h
      rw [htail] at he
      simpa using he.symm

/-- The source's `{n:02d}` formatting agrees with the spec's "left pad
with zeros to width two" on the month/day range. -/
theorem pad2_eq_leftPad {n : Nat} (h : n ≤ 31) :
    pad2 n = leftPadZero 2 (Nat.repr n) := by
  interval_cases n <;> rfl

/-- The source's destination key is exactly the spec-side layout
function. -/
theorem convertedS3Key_eq_spec (pre : String) (d : Date) (fn : String) :
    convertedS3Key pre d fn = specDestKey pre d fn := by
  unfold convertedS3Key specDestKey
  rw [pad2_eq_leftPad (le_trans d.month_le (by norm_num)),
    pad2_eq_leftPad d.day_le31]

/-- C5 (counterexample): the destination key is built with Python
`str.replace`, which replaces every occurrence of `".zarr.zip"`, not only
the archive suffix: for the filename `"model.zarr.zip.zarr.zip"` the
source computes `.../model.nc.nc` while suffix replacement, as the claim
states it, gives `.../model.zarr.zip.nc`. -/
theorem dest_key_not_suffix_replacement_cex :
    convertedS3Key "p" dJuly1 "model.zarr.zip.zarr.zip" =
      "p/2025/07/01/model.nc.nc" ∧
    specSuffixKey "p" dJuly1 "model.zarr.zip.zarr.zip" =
      some "p/2025/07/01/model.zarr.zip.nc" ∧
    ¬ specSuffixKey "p" dJuly1 "model.zarr.zip.zarr.zip" =
      some (convertedS3Key "p" dJuly1 "model.zarr.zip.zarr.zip") :=
  ⟨rfl, rfl, by decide⟩

/-- C5 (amended): the destination key equals
`<prefix>/<year>/<zero-padded-month>/<zero-padded-day>/<filename with
every occurrence of ".zarr.zip" replaced by ".nc">` (for a filename
containing `".zarr.zip"` only as its final suffix this coincides with
suffix replacement), and it is a deterministic pure function of
(date, filename): every key the file pipeline checks for existence and
every key it uploads to is this same function applied to the same
inputs. -/
theorem dest_key_pure_layout (env : Env) (cfg : Config) (d : Date)
    (rp out : String) (evs : List Event)
    (h : processFile env cfg d rp = .ok (out, evs)) :
    (∀ b k, Event.headCheck b k ∈ evs →
      k = specDestKey cfg.s3_prefix_ d (basename rp)) ∧
    (∀ l b k, Event.upload l b k ∈ evs →
      k = specDestKey cfg.s3_prefix_ d (basename rp)) := by
  obtain ⟨gevs, tail, he, hgevs, hhc, -, -, hup⟩ :=
    processFile_ok_events env cfg d rp out evs h
  rw [← convertedS3Key_eq_spec]
  subst he
  constructor
  · intro b k hk
    rcases List.mem_cons.mp hk with h1 | h1
    · simp at h1
    rcases List.mem_append.mp h1 with h2 | h2
    · rcases hgevs with rfl | rfl
      · simp at h2
      · simp at h2
        exact h2.2
    · exact absurd h2 (hhc b k)
  · intro l b k hk
    rcases List.mem_cons.mp hk with h1 | h1
    · simp at h1
    rcases List.mem_append.mp h1 with h2 | h2
    · rcases hgevs with rfl | rfl <;> simp at h2
    · exact (hup l b k h2).2

/-- C5 witness: at the concrete skip fixture the key consulted by the
existence check equals the spec layout function of (date, filename). -/
theorem dest_key_pure_layout_witness :
    ("p/2025/07/01/a.nc" : String) =
      specDestKey "p" dJuly1 (basename "data/2025/7/1/a.zarr.zip") :=
  (dest_key_pure_layout envSkip cfgBase dJuly1 "data/2025/7/1/a.zarr.zip"
      "SKIPPED 2025-07-01 a.zarr.zip"
      [Event.mkdir "/stage/2025/7/1", Event.headCheck "bkt" "p/2025/07/01/a.nc"]
      rfl).1 "bkt" "p/2025/07/01/a.nc" (by simp)

/-- A `pyJoin` result inherits any suffix of its second component. -/
theorem strEndsWith_pyJoin {a b suf : String}
    (h : strEndsWith b suf = true) : strEndsWith (pyJoin a b) suf = true := by
  have h1 : suf.data <:+ b.data := List.isSuffixOf_iff_suffix.mp h
  have h2 : b.data <:+ (pyJoin a b).data := pyJoin_suffix a b
  exact List.isSuffixOf_iff_suffix.mpr (h1.trans h2)

/-- C10: the cleanup stage's only removal target is `local_original` (the
staging path of the fetched archive); in particular no `.nc` file — so no
converted artifact — is ever deleted by the pipeline, on any outcome path
(`OK` and `FAILED-UPLOAD` included); and the run is unaffected by whether
the deletion raises `OSError`, which is the one exception class
`os.remove` raises and which the source swallows. -/
theorem cleanup_only_original (env : Env) (cfg : Config) (d : Date)
    (rp out : String) (evs : List Event)
    (hfn : strEndsWith (basename rp) ".zarr.zip" = true)
    (h : processFile env cfg d rp = .ok (out, evs)) :
    (∀ p, Event.removeFile p ∈ evs →
      p = localOriginal cfg.local_root d rp) ∧
    (∀ p, strEndsWith p ".nc" = true → Event.removeFile p ∉ evs) ∧
    (∀ f, processFile { env with removeRaisesOSError := f } cfg d rp =
      .ok (out, evs)) := by
  obtain ⟨gevs, tail, he, hgevs, -, -, hrm, -⟩ :=
    processFile_ok_events env cfg d rp out evs h
  have hrm' : ∀ p, Event.removeFile p ∈ evs →
      p = localOriginal cfg.local_root d rp := by
    subst he
    intro p hp
    rcases List.mem_cons.mp hp with h1 | h1
    · simp at h1
    rcases List.mem_append.mp h1 with h2 | h2
    · rcases hgevs with rfl | rfl <;> simp at h2
    · exact hrm p h2
  refine ⟨hrm', ?_, fun f => h⟩
  intro p hnc hmem
  have hp := hrm' p hmem
  subst hp
  have hzz : strEndsWith (localOriginal cfg.local_root d rp) ".zarr.zip" = true :=
    strEndsWith_pyJoin hfn
  have hfalse := not_nc_of_zarrZip hzz
  rw [hnc] at hfalse
  cases hfalse

/-- C10 witness: at the concrete `OK`-path fixture the removal target is
the staging path of the archive and the converted `.nc` file is not
removed. -/
theorem cleanup_only_original_witness :
    ("/stage/2025/7/1/a.zarr.zip" : String) =
      localOriginal cfgBase.local_root dJuly1 "data/2025/7/1/a.zarr.zip" ∧
    Event.removeFile "./data/2025/7/1/a.nc" ∉
      eventsOf (processFile envFresh cfgBase dJuly1 "data/2025/7/1/a.zarr.zip") := by
  have h := cleanup_only_original envFresh cfgBase dJuly1
      "data/2025/7/1/a.zarr.zip" "OK 2025-07-01 a.zarr.zip"
      [Event.mkdir "/stage/2025/7/1",
       Event.headCheck "bkt" "p/2025/07/01/a.nc",
       Event.download "data/2025/7/1/a.zarr.zip" "./data/2025/7/1/a.zarr.zip",
       Event.convertCall "./data/2025/7/1/a.zarr.zip",
       Event.upload "./data/2025/7/1/a.nc" "bkt" "p/2025/07/01/a.nc",
       Event.removeFile "/stage/2025/7/1/a.zarr.zip"]
      rfl rfl
  exact ⟨h.1 "/stage/2025/7/1/a.zarr.zip" (by simp),
    h.2.1 "./data/2025/7/1/a.nc" rfl⟩

theorem getLastD_mem_cons {α : Type} : ∀ (l : List α) (a d : α),
    (a :: l).getLastD d ∈ a :: l := by
  intro l
  induction l with
  | nil => intro a d; simp
  | cons b l' ih =>
    intro a d
    rw [List.getLastD_cons]
    exact List.mem_cons_of_mem a (ih b a)

theorem chain_lt_headD_getLastD {l : List ℚ}
    (h : List.Chain' (· < ·) l) (h2 : 2 ≤ l.length) :
    l.headD 0 < l.getLastD 0 := by
  match l, h2 with
  | a :: b :: rest, _ =>
    have hp := List.chain'_iff_pairwise.mp h
    have hmem : (a :: b :: rest).getLastD 0 ∈ b :: rest := by
      rw [List.getLastD_cons]
      exact getLastD_mem_cons rest b a
    have := List.rel_of_pairwise_cons hp hmem
    simpa using this

theorem chain_gt_headD_getLastD {l : List ℚ}
    (h : List.Chain' (· > ·) l) (h2 : 2 ≤ l.length) :
    l.headD 0 > l.getLastD 0 := by
  match l, h2 with
  | a :: b :: rest, _ =>
    have hp := List.chain'_iff_pairwise.mp h
    have hmem : (a :: b :: rest).getLastD 0 ∈ b :: rest := by
      rw [List.getLastD_cons]
      exact getLastD_mem_cons rest b a
    have := List.rel_of_pairwise_cons hp hmem
    simpa using this

/-- C6: orientation-correct geographic selection.  For a latitude axis of
at least two points that is strictly ascending or strictly descending
(and a monotone longitude axis), the converter's branch on
`values[0] < values[-1]` together with the swapped latitude slice bounds
makes the selected window exactly the fixed geographic extent
latitude 45.7-46.4, longitude 10.5-11.9, in both orientations; the
longitude bounds are never swapped. -/
theorem bbox_orientation_correct (ds : Dataset)
    (hlat : (List.Chain' (· < ·) ds.latitude ∨
             List.Chain' (· > ·) ds.latitude) ∧ 2 ≤ ds.latitude.length)
    (hlon : List.Chain' (· ≤ ·) ds.longitude) :
    (bboxSelect ds).latitude =
      ds.latitude.filter (fun v => decide (lat_min ≤ v ∧ v ≤ lat_max)) ∧
    (bboxSelect ds).longitude =
      ds.longitude.filter (fun v => decide (lon_min ≤ v ∧ v ≤ lon_max)) := by
  obtain ⟨hmono, hlen⟩ := hlat
  have hlonSel : xrSel lon_min lon_max ds.longitude =
      ds.longitude.filter (fun v => decide (lon_min ≤ v ∧ v ≤ lon_max)) := by
    unfold xrSel
    rw [if_pos hlon]
  rcases hmono with hasc | hdesc
  · have hcond : ds.latitude.headD 0 < ds.latitude.getLastD 0 :=
      chain_lt_headD_getLastD hasc hlen
    have hle : List.Chain' (· ≤ ·) ds.latitude :=
      List.Chain'.imp (fun a b hab => le_of_lt hab) hasc
    unfold bboxSelect
    rw [if_pos hcond]
    refine ⟨?_, hlonSel⟩
    unfold xrSel
    rw [if_pos hle]
  · have hcond : ds.latitude.getLastD 0 < ds.latitude.headD 0 :=
      chain_gt_headD_getLastD hdesc hlen
    have hnle : ¬ List.Chain' (· ≤ ·) ds.latitude := by
      match hslat : ds.latitude, hlen, hdesc with
      | a :: b :: rest, _, hdesc =>
        intro hle
        have h1 : a > b := (List.chain'_cons.mp hdesc).1
        have h2 : a ≤ b := (List.chain'_cons.mp hle).1
        exact absurd h2 (not_le_of_lt h1)
    unfold bboxSelect
    rw [if_neg (fun hc => absurd hc (not_lt_of_gt hcond))]
    refine ⟨?_, hlonSel⟩
    unfold xrSel
    rw [if_neg hnle]

/-- A strictly descending three-point latitude axis with a one-point
longitude axis, for the C6 witness. -/
def dsDesc : Dataset := ⟨[47, 46, 45], [11]⟩

/-- C6 witness: the theorem applied to a concrete strictly descending
latitude axis. -/
theorem bbox_orientation_correct_witness :
    ((List.Chain' (· < ·) dsDesc.latitude ∨
      List.Chain' (· > ·) dsDesc.latitude) ∧ 2 ≤ dsDesc.latitude.length) ∧
    List.Chain' (· ≤ ·) dsDesc.longitude ∧
    (bboxSelect dsDesc).latitude =
      dsDesc.latitude.filter (fun v => decide (lat_min ≤ v ∧ v ≤ lat_max)) ∧
    (bboxSelect dsDesc).longitude =
      dsDesc.longitude.filter (fun v => decide (lon_min ≤ v ∧ v ≤ lon_max)) := by
  have h1 : (List.Chain' (· < ·) dsDesc.latitude ∨
      List.Chain' (· > ·) dsDesc.latitude) ∧ 2 ≤ dsDesc.latitude.length := by
    refine ⟨Or.inr ?_, by simp [dsDesc]⟩
    show List.Chain' (· > ·) [47, 46, 45]
    simp [List.chain'_cons]
    norm_num
  have h2 : List.Chain' (· ≤ ·) dsDesc.longitude := by
    show List.Chain' (· ≤ ·) [11]
    simp
  have h := bbox_orientation_correct dsDesc h1 h2
  exact ⟨h1, h2, h.1, h.2⟩

/-- C7: a selected window of zero extent in either axis makes the
converter raise before writing any output (no `netcdfWrite` event), and
the file pipeline then emits exactly `FAILED-CONVERT` with no upload —
no artifact reaches the destination key. -/
theorem empty_window_failed_convert (env : Env) (cfg : Config) (d : Date)
    (rp : String) (dsOf : String → Dataset)
    (hconv : env.convert = fun p => (extract p (dsOf p)).1)
    (hforce : cfg.force = true) (hdry : cfg.dryrun = false)
    (hdl : env.downloadOk rp = true)
    (hempty : (bboxSelect (dsOf (pyJoin "./" rp))).latitude = [] ∨
              (bboxSelect (dsOf (pyJoin "./" rp))).longitude = []) :
    (extract (pyJoin "./" rp) (dsOf (pyJoin "./" rp))).1 =
      .error ("Empty subset for " ++ pyJoin "./" rp) ∧
    (extract (pyJoin "./" rp) (dsOf (pyJoin "./" rp))).2 = [] ∧
    processFile env cfg d rp =
      .ok ("FAILED-CONVERT " ++ dateStr d ++ " " ++ basename rp,
           [Event.mkdir (localDir cfg.local_root d),
            Event.download rp (pyJoin "./" rp),
            Event.convertCall (pyJoin "./" rp)]) := by
  have hcondition : ((bboxSelect (dsOf (pyJoin "./" rp))).latitude.length = 0 ∨
      (bboxSelect (dsOf (pyJoin "./" rp))).longitude.length = 0) := by
    rcases hempty with h | h <;> simp [h]
  have hex1 : (extract (pyJoin "./" rp) (dsOf (pyJoin "./" rp))).1 =
      .error ("Empty subset for " ++ pyJoin "./" rp) := by
    unfold extract
    dsimp only
    rw [if_pos hcondition]
  have hex2 : (extract (pyJoin "./" rp) (dsOf (pyJoin "./" rp))).2 = [] := by
    unfold extract
    dsimp only
    rw [if_pos hcondition]
  refine ⟨hex1, hex2, ?_⟩
  rw [processFile_force d rp hforce]
  unfold afterGate
  simp only [downloadStep, hdry, Bool.false_eq_true, if_false, hdl, if_true]
  rw [hconv]
  dsimp only
  rw [hex1]
  simp

/-- A dataset family whose latitude values lie entirely north of the
bounding box, so the selected window is empty. -/
def dsEmptyWin : String → Dataset := fun _ => ⟨[50, 51], [11]⟩

/-- The selection of `dsEmptyWin` is empty on the latitude axis. -/
theorem dsEmptyWin_empty (p : String) :
    (bboxSelect (dsEmptyWin p)).latitude = [] := by
  show (bboxSelect ⟨[50, 51], [11]⟩).latitude = []
  unfold bboxSelect
  rw [if_pos (by norm_num)]
  dsimp only
  unfold xrSel
  rw [if_pos (by simp [List.chain'_cons]; norm_num)]
  norm_num [List.filter, lat_min, lat_max]

/-- `envFresh` with the converter refined to the `extract` model over
`dsEmptyWin`. -/
def envC7 : Env :=
  { envFresh with convert := fun p => (extract p (dsEmptyWin p)).1 }

/-- C7 witness: the theorem applied at the concrete fixtures. -/
theorem empty_window_failed_convert_witness :
    envC7.convert = (fun p => (extract p (dsEmptyWin p)).1) ∧
    processFile envC7 cfgForce dJuly1 "data/2025/7/1/a.zarr.zip" =
      .ok ("FAILED-CONVERT 2025-07-01 a.zarr.zip",
           [Event.mkdir "/stage/2025/7/1",
            Event.download "data/2025/7/1/a.zarr.zip" "./data/2025/7/1/a.zarr.zip",
            Event.convertCall "./data/2025/7/1/a.zarr.zip"]) ∧
    (extract "./data/2025/7/1/a.zarr.zip"
        (dsEmptyWin "./data/2025/7/1/a.zarr.zip")).2 = [] := by
  have h := empty_window_failed_convert envC7 cfgForce dJuly1
      "data/2025/7/1/a.zarr.zip" dsEmptyWin rfl rfl rfl rfl
      (Or.inl (dsEmptyWin_empty _))
  refine ⟨rfl, ?_, h.2.1⟩
  rw [h.2.2]
  rfl

/-- C8 (code_bug evidence): in a non-dryrun the download stage passes the
hardcoded `local_dir="./"` to `hf_hub_download`, so the fetched file lands
at the repo-relative path under the current directory —
`./data/2025/7/1/a.zarr.zip` — and the converted file is written next to
it, while the staging path derived from `local_root` (`/stage/...`), which
the same loop iteration creates with `mkdir` and later passes to
`os.remove`, is a different path; the dryrun branch of the same code does
place the file at the `local_root` staging path. -/
theorem download_ignores_local_root_bug :
    processFile envFresh cfgBase dJuly1 "data/2025/7/1/a.zarr.zip" =
      .ok ("OK 2025-07-01 a.zarr.zip",
           [Event.mkdir "/stage/2025/7/1",
            Event.headCheck "bkt" "p/2025/07/01/a.nc",
            Event.download "data/2025/7/1/a.zarr.zip" "./data/2025/7/1/a.zarr.zip",
            Event.convertCall "./data/2025/7/1/a.zarr.zip",
            Event.upload "./data/2025/7/1/a.nc" "bkt" "p/2025/07/01/a.nc",
            Event.removeFile "/stage/2025/7/1/a.zarr.zip"]) ∧
    localOriginal cfgBase.local_root dJuly1 "data/2025/7/1/a.zarr.zip" =
      "/stage/2025/7/1/a.zarr.zip" ∧
    ("./data/2025/7/1/a.zarr.zip" : String) ≠ "/stage/2025/7/1/a.zarr.zip" ∧
    processFile envFresh { cfgBase with dryrun := true } dJuly1
        "data/2025/7/1/a.zarr.zip" =
      .ok ("OK 2025-07-01 a.zarr.zip",
           [Event.mkdir "/stage/2025/7/1",
            Event.headCheck "bkt" "p/2025/07/01/a.nc",
            Event.dryrunWrite "/stage/2025/7/1/a.zarr.zip",
            Event.convertCall "/stage/2025/7/1/a.zarr.zip",
            Event.removeFile "/stage/2025/7/1/a.zarr.zip"]) :=
  ⟨rfl, rfl, by decide, rfl⟩

/-- C3 witness: the amended theorem applied at the concrete fixtures. -/
theorem run_pipeline_summary_order_witness :
    (∀ b k m, envSkip.head b k ≠ HeadResult.otherError m) ∧
    run_pipeline envSkip cfgBase dJuly1 dJuly1 =
      .ok { ret := none,
            summary := (dateRange dJuly1 dJuly1).flatMap
                (fun d => okOutcomes (process_single_day envSkip cfgBase d)) } :=
  ⟨fun _ _ _ h => HeadResult.noConfusion h,
   (run_pipeline_summary_order envSkip cfgBase dJuly1 dJuly1
      (fun _ _ _ h => HeadResult.noConfusion h)).1⟩

end DwdHf
